import Mathlib

/-!
# Verification of the go11y observability library

Shallow embedding of the core algorithms of `cirruscomms/go11y`:
argument deduplication (`DeduplicateArgs`, `Observer.AddArgs`), the
secret-redaction engine (`RedactSecret`, `RedactHeaders`), the transport
decoration chain (`logRoundTripper`, `dbStoreRoundTripper`,
`metricsRoundTripper`) and the Observer lifecycle (`Get`, `Extend`,
`Span`, `End`, `Close`).

Go byte strings are modelled as `List Char` where character-level slicing
matters (the redaction engine, which the repository only applies to ASCII
header data, where byte length and character count agree) and as `String`
where values are only compared for equality (the argument lists).
A function that can panic at runtime in Go is modelled with an `Option`
result, `none` standing for the panic.
-/

namespace Go11y

/-! ## Argument deduplication

`DeduplicateArgs` (logging.go) walks the flat key/value token list two at
a time, keeps the first occurrence of each key (keys compared by their
string rendering) and drops an odd trailing key. -/

/-- Embeds the loop of `DeduplicateArgs`: `keys` is the `keys` slice of
already-seen keys, the two-step pattern is `i += 2` with the
`len(args) >= i+2` guard dropping an odd trailing token, and the
`slices.Contains(keys, key)` test skips a repeated key together with its
value. -/
def dedupGo (keys : List String) : List String → List String
  | k :: v :: rest =>
    if keys.contains k then dedupGo keys rest
    else k :: v :: dedupGo (keys ++ [k]) rest
  | _ => []

/-- `DeduplicateArgs` from logging.go: first-occurrence-wins deduplication
of a flat key/value token list. -/
def DeduplicateArgs (args : List String) : List String :=
  dedupGo [] args

/-! `Observer.AddArgs` (go11y.go) instead folds the token list into a Go
`map[any]any` and then flattens the map back to a token list.  The map
content is deterministic; Go's map iteration order is not.  The embedding
represents the map as an association list in insertion order (updates in
place, new keys appended), which is one of the orders Go may emit; every
theorem about an order-dependent aspect of `AddArgs` below is either
stated only at inputs where all iteration orders agree, or quantified
over every iteration order through `AddArgsCanReturn`. -/

/-- Go map assignment `exArgs[k] = v`: replace the value in place if the
key is present, otherwise add the entry. -/
def mapUpsert (m : List (String × String)) (k v : String) : List (String × String) :=
  match m with
  | [] => [(k, v)]
  | (k', v') :: rest => if k' = k then (k, v) :: rest else (k', v') :: mapUpsert rest k v

/-- `processArgs` from go11y.go: consume one key/value pair into the map,
returning the remaining tokens; fewer than two tokens are discarded. -/
def processArgs (exArgs : List (String × String)) (args : List String) :
    List (String × String) × List String :=
  match args with
  | k :: v :: rest => (mapUpsert exArgs k v, rest)
  | _ => (exArgs, [])

/-- The `for len(args) > 0` loop of `AddArgs`, fused with `processArgs`
(each iteration consumes two tokens, or ends the loop on a lone token). -/
def buildArgsMap (exArgs : List (String × String)) : List String → List (String × String)
  | k :: v :: rest => buildArgsMap (mapUpsert exArgs k v) rest
  | _ => exArgs

/-- The final `for k, v := range exArgs` flattening of `AddArgs`, in the
embedding's canonical (insertion) order. -/
def flattenPairs : List (String × String) → List String
  | [] => []
  | (k, v) :: rest => k :: v :: flattenPairs rest

/-- `Observer.AddArgs` from go11y.go: prepend `o.stableArgs`, fold the
tokens into a map, flatten the map back to tokens. -/
def AddArgs (stableArgs args : List String) : List String :=
  flattenPairs (buildArgsMap [] (stableArgs ++ args))

/-- One possible execution of `AddArgs`: the final
`for k, v := range exArgs` walks the map in an arbitrary (randomized)
order, so a run may return the flattening of any permutation of the
map's content. -/
def AddArgsCanReturn (stableArgs args out : List String) : Prop :=
  ∃ M : List (String × String),
    M.Perm (buildArgsMap [] (stableArgs ++ args)) ∧ out = flattenPairs M

/-! ## Secret redaction engine (transport.go / secrets) -/

/-- Decimal rendering of a natural number, as Go's `%d` prints the
(always non-negative here) interior length. -/
def natChars (n : Nat) : List Char :=
  (Nat.repr n).data

/-- The clamp at the head of `RedactSecret`: `reveal` is lowered to
`len(secretStr)/8` only when it exceeds that bound (a negative `reveal`
is left untouched). -/
def clampReveal (len : Nat) (reveal : Int) : Int :=
  if reveal > (len / 8 : Nat) then ((len / 8 : Nat) : Int) else reveal

/-- `RedactSecret` from transport.go.  The four `switch` cases in source
order: empty string, fully starred short string, `*len-2*` for length 5–7
or a clamped reveal of 0, and the `s[0:reveal] ++ [interior] ++
s[len-reveal:]` notation otherwise.  In the last case Go evaluates
`secretStr[0:reveal]`, which panics when `reveal` is negative; the panic
is modelled as `none`. -/
def RedactSecret (s : List Char) (reveal : Int) : Option (List Char) :=
  let r := clampReveal s.length reveal
  if s.length = 0 then some []
  else if s.length < 5 then some (List.replicate s.length '*')
  else if s.length ≤ 7 ∨ r = 0 then some ('*' :: natChars (s.length - 2) ++ ['*'])
  else if r < 0 then none
  else some (s.take r.toNat ++ '[' :: natChars (s.length - 2 * r.toNat) ++ [']'] ++
    s.drop (s.length - r.toNat))

/-- Boolean test that `pat` starts the list `s`. -/
def startsWithSeq (s pat : List Char) : Bool :=
  match pat, s with
  | [], _ => true
  | _ :: _, [] => false
  | p :: ps, c :: cs => p == c && startsWithSeq cs ps

/-- Boolean test that `pat` occurs contiguously somewhere in `s` — an
unanchored regular-expression literal match. -/
def containsSeq (s pat : List Char) : Bool :=
  match s with
  | [] => pat.isEmpty
  | _ :: rest => startsWithSeq s pat || containsSeq rest pat

/-- The alternatives of `forbiddenKeysRex`; `.*secret.*`, `.*key.*` and
`.*token.*` match exactly when the bare literal occurs as a substring,
and an unanchored `MatchString` makes the remaining alternatives
substring tests too. -/
def forbiddenPats : List (List Char) :=
  ["authorization".data, "authorisation".data, "cookie".data, "password".data,
   "secret".data, "key".data, "token".data]

/-- `forbiddenKeysRex.MatchString(strings.ToLower(key))`: does the
lower-cased header name contain one of the sensitive-name literals? -/
def forbiddenKeysMatch (key : List Char) : Bool :=
  forbiddenPats.any (fun p => containsSeq (key.map Char.toLower) p)

/-- `RedactSecret(v, 6)` as `RedactHeaders` applies it; with the
non-negative reveal 6 the slice panic is unreachable (see
`RedactSecret_nonneg_isSome`). -/
def redactValue6 (v : List Char) : List Char :=
  (RedactSecret v 6).getD []

/-- HTTP headers: a map from header name to the slice of values.  The Go
map is represented as an association list; the list order is the
embedding's canonical iteration order. -/
abbrev Headers := List (List Char × List (List Char))

/-- `RedactHeaders` from transport.go (the regular-expression version the
package's tests exercise): a sensitive header has each value replaced by
`RedactSecret(value, 6)` — except that with an empty value slice the
inner loop never runs, so the key is absent from the result — and every
other header is copied through unchanged. -/
def RedactHeaders (headers : Headers) : Headers :=
  headers.foldr
    (fun kv acc =>
      if forbiddenKeysMatch kv.1 then
        match kv.2 with
        | [] => acc
        | vs => (kv.1, vs.map redactValue6) :: acc
      else kv :: acc)
    []

/-- First-match lookup of a header name in a header map. -/
def headerLookup (k : List Char) (hs : Headers) : Option (List (List Char)) :=
  (hs.find? (fun kv => kv.1 == k)).map (fun kv => kv.2)

/-! ## Transport decoration chain (transport.go) -/

/-- Error values are carried as their message strings. -/
abbrev GoErr := List Char

/-- The parts of an `http.Request` the decorators read: method, full URL,
URL path, body bytes and header map. -/
structure Request where
  method : List Char
  url : List Char
  urlPath : List Char
  body : List Char
  headers : Headers
deriving DecidableEq

/-- The parts of an `http.Response` the decorators read. -/
structure Response where
  statusCode : Int
  headers : Headers
  body : List Char
deriving DecidableEq

/-- An inner `RoundTrip` result, Go's `(resp, err)` convention: `.ok` is
a non-nil response with nil error, `.error` a nil response with a
non-nil error. -/
abbrev RoundTripResult := Except GoErr Response

/-- A structured log attribute value: a plain string or a header map. -/
inductive LogValue where
  | str : List Char → LogValue
  | headerMap : Headers → LogValue
deriving DecidableEq

/-- Structured log field names from fields.go. -/
def FieldRequestHeaders : List Char := "request_headers".data

def FieldRequestMethod : List Char := "request_method".data

def FieldRequestURL : List Char := "request_url".data

def FieldRequestBody : List Char := "request_body".data

/-- The `requestArgs` list built by `logRoundTripper` before delegating:
redacted request headers, method, URL and the buffered body, logged under
the structured field names. -/
def requestLogArgs (r : Request) : List (List Char × LogValue) :=
  [(FieldRequestHeaders, .headerMap (RedactHeaders r.headers)),
   (FieldRequestMethod, .str r.method),
   (FieldRequestURL, .str r.url),
   (FieldRequestBody, .str r.body)]

/-- Does a logged attribute value mention `tok` anywhere (inside a plain
string, a header name or a header value)? -/
def valueMentions (tok : List Char) : LogValue → Bool
  | .str s => containsSeq s tok
  | .headerMap hs => hs.any (fun kv =>
      containsSeq kv.1 tok || kv.2.any (fun v => containsSeq v tok))

/-- One recorded metric sample: status code, method, masked path and the
start time taken before the inner call. -/
structure MetricsCall where
  status : Int
  method : List Char
  path : List Char
  start : Nat
deriving DecidableEq

/-- `metricsRoundTripper` from transport.go: take `t0`, delegate, mask
the path, then call `recorder(resp.StatusCode, ...)`.  The source reads
`resp.StatusCode` without a nil check, so when the inner transport
returns `(nil, err)` the dereference panics — modelled as `none`.  On a
non-nil response the recorded sample and the propagated `(resp, err)`
pair are returned. -/
def metricsRoundTrip (inner : Request → RoundTripResult)
    (pathMask : Option (List Char → List Char)) (r : Request) (t0 : Nat) :
    Option (MetricsCall × RoundTripResult) :=
  let res := inner r
  let path := match pathMask with
    | some f => f r.urlPath
    | none => r.urlPath
  match res with
  | .error _ => none
  | .ok resp => some (⟨resp.statusCode, r.method, path, t0⟩, .ok resp)

/-- Severity constants from severity.go. -/
def SeverityHigh : List Char := "high".data

/-- The record `dbStoreRoundTripper` pushes through the `DBStorer`
field-setter contract before `Exec`: URL, method, redacted header maps
(serialisation of the maps is the collaborator's concern), buffered
bodies, elapsed milliseconds and status code. -/
structure StoredRecord where
  url : List Char
  method : List Char
  reqHeaders : Headers
  respHeaders : Headers
  reqBody : List Char
  respBody : List Char
  responseTimeMs : Nat
  statusCode : Int
deriving DecidableEq

/-- What one pass through `dbStoreRoundTripper` did: the committed record
(if any), the `o.Error(msg, err, severity)` call (if any), and the
`(resp, err)` pair handed back to the caller. -/
structure DBStoreOutcome where
  stored : Option StoredRecord
  loggedError : Option (List Char × List Char)
  response : Option Response
  fault : Option GoErr
deriving DecidableEq

/-- `dbStoreRoundTripper` from transport.go.  An inner error is returned
unchanged with nothing stored or logged.  On success the record is
assembled from the buffered bodies and redacted headers and `Exec` is
run: an `Exec` error is logged via `o.Error(..., SeverityHigh)` and the
call returns a nil response with the wrapped error; otherwise the
response is returned with the record committed.  `execErr` is the result
the storage collaborator's `Exec` would produce. -/
def dbStoreRoundTrip (execErr : Option GoErr) (inner : Request → RoundTripResult)
    (r : Request) (durationMs : Nat) : DBStoreOutcome :=
  match inner r with
  | .error e => ⟨none, none, none, some e⟩
  | .ok resp =>
    let record : StoredRecord :=
      ⟨r.url, r.method, RedactHeaders r.headers, RedactHeaders resp.headers,
       r.body, resp.body, durationMs, resp.statusCode⟩
    match execErr with
    | some e =>
      ⟨none, some ("failed to store request/response in database".data, SeverityHigh),
       none, some ("failed to store request/response in database: ".data ++ e)⟩
    | none => ⟨some record, none, some resp, none⟩

/-! ## Observer lifecycle and span stack (go11y.go) -/

/-- The Observer state the claims touch: the accumulated stable
arguments, the current span and the span stack (spans carried as
identifiers). -/
structure Observer where
  stableArgs : List String
  span : Option Nat
  spans : List Nat
deriving DecidableEq

/-- The reserved context key `obsKeyInstance`. -/
def obsKeyInstance : String := "cirruscomms/go11y"

/-- A `context.Context` viewed as its key/Observer bindings; `WithValue`
prepends, so the innermost binding is found first. -/
abbrev Context := List (String × Observer)

/-- `ctx.Value(key)`: innermost binding for the key, if any. -/
def ctxValue (ctx : Context) (k : String) : Option Observer :=
  (ctx.find? (fun kv => kv.1 == k)).map (fun kv => kv.2)

/-- `context.WithValue(ctx, key, o)`. -/
def withValue (ctx : Context) (k : String) (o : Observer) : Context :=
  (k, o) :: ctx

/-- The `ObserverNotFound` message returned by `Get`. -/
def observerNotFoundMsg : GoErr :=
  "go11y Observer not found in context - please initialise go11y first".data

/-- `Get` from go11y.go: return the Observer bound under
`obsKeyInstance`, or the `ObserverNotFound` error if the context holds
none; the context is handed back untouched and no Observer is ever
created here. -/
def Get (ctx : Context) : Except GoErr (Context × Observer) :=
  match ctxValue ctx obsKeyInstance with
  | none => .error observerNotFoundMsg
  | some o => .ok (ctx, o)

/-- `Extend` from go11y.go: fetch the Observer (propagating the `Get`
failure), merge any new arguments into `stableArgs` via `AddArgs`, and
rebind the Observer into the context. -/
def Extend (ctx : Context) (newArgs : List String) : Except GoErr (Context × Observer) :=
  match Get ctx with
  | .error e => .error e
  | .ok (ctx', o) =>
    let o' := if newArgs = [] then o
      else { o with stableArgs := AddArgs o.stableArgs newArgs }
    .ok (withValue ctx' obsKeyInstance o', o')

/-- The span bookkeeping of `Span` from go11y.go: `o.span = span;
o.spans = append(o.spans, span)`. -/
def SpanPush (o : Observer) (s : Nat) : Observer :=
  { o with span := some s, spans := o.spans ++ [s] }

/-- `End` from go11y.go: end the current span, truncate the stack by one
and restore the previous top (or clear the current span on an empty
stack).  `o.span.End()` on a nil span and `o.spans[:len-1]` on an empty
stack both panic, modelled as `none`; otherwise the new state and the
identifier of the span that was ended are returned. -/
def End (o : Observer) : Option (Observer × Nat) :=
  match o.span with
  | none => none
  | some s =>
    if o.spans.isEmpty then none
    else
      let spans' := o.spans.dropLast
      some ({ o with spans := spans', span := spans'.getLast? }, s)

/-- The span-ending part of `Close` from go11y.go: when a current span
exists it is ended and then every stacked span is ended in stack order;
with no current span nothing is ended.  Every operation involved is
total, so `Close` cannot panic; the returned list is the sequence of
`End()` calls issued. -/
def Close (o : Observer) : List Nat :=
  match o.span with
  | none => []
  | some s => s :: o.spans

/-! ## Specification-side definitions

Each definition below follows the words of a spec claim, to be compared
against the corresponding embedding of the source. -/

/-- The key/value pairs of a flat token list; an odd trailing token forms
no pair. -/
def pairsOf : List String → List (String × String)
  | k :: v :: rest => (k, v) :: pairsOf rest
  | _ => []

/-- Claim C1's words for the deduplication contract: walk the pairs in
order, keep a pair exactly when its key has not been kept before (the
first occurrence's value wins, later occurrences are discarded, the
relative order of first occurrences is preserved, an odd trailing key is
dropped). -/
def dedupeSpec (args : List String) : List String :=
  flattenPairs ((pairsOf args).foldl
    (fun acc kv => if (acc.map Prod.fst).contains kv.1 then acc else acc ++ [kv]) [])

/-- Value of the last pair with the given key, if any. -/
def lastValueOf (k : String) (args : List String) : Option String :=
  (((pairsOf args).filter (fun kv => kv.1 == k)).getLast?).map (fun kv => kv.2)

/-- First-match lookup in the association-list representation of a Go
map. -/
def lookupArgs (m : List (String × String)) (k : String) : Option String :=
  (m.find? (fun kv => kv.1 == k)).map (fun kv => kv.2)

/-- Bookkeeping predicate for the deduplication proofs: the token list is
a sequence of pairs whose keys are pairwise distinct and avoid `keys`. -/
def nodupPairsB (keys : List String) : List String → Bool
  | [] => true
  | k :: _ :: rest => !keys.contains k && nodupPairsB (keys ++ [k]) rest
  | _ => false

/-- Claim C3's words for `RedactSecret` at a non-negative reveal: clamp
`n` to `min n (len/8)`, then return the empty string, the fully starred
string, the `*len-2*` token, or the
`s[0:n] ++ "[" ++ (len-2n) ++ "]" ++ s[len-n:]` notation according to the
stated length/reveal regime. -/
def RedactSecretSpec (s : List Char) (n : Int) : List Char :=
  let n' := min n ((s.length / 8 : Nat) : Int)
  if s.length = 0 then []
  else if 1 ≤ s.length ∧ s.length ≤ 4 then List.replicate s.length '*'
  else if (5 ≤ s.length ∧ s.length ≤ 7) ∨ n' = 0 then
    '*' :: natChars (s.length - 2) ++ ['*']
  else s.take n'.toNat ++ '[' :: natChars (s.length - 2 * n'.toNat) ++ [']'] ++
    s.drop (s.length - n'.toNat)

/-- Claim C5's words for `RedactHeaders`: every value of every header
whose name case-insensitively matches the sensitive-name pattern is
replaced with `RedactSecret(value, 6)`, and every other header passes
through unmodified with its original value ordering and multiplicity. -/
def RedactHeadersSpec (headers : Headers) : Headers :=
  headers.map (fun kv =>
    if forbiddenKeysMatch kv.1 then (kv.1, kv.2.map redactValue6) else kv)

/-- The concrete outbound request of claim C4: a request carrying
`Authorization: Bearer mysecrettoken`. -/
def bearerRequest : Request :=
  ⟨"GET".data, "https://api.example.com/v1/accounts".data, "/v1/accounts".data, [],
   [("Content-Type".data, ["application/json".data]),
    ("Authorization".data, ["Bearer mysecrettoken".data])]⟩

/-- An inner transport that fails with a transport error: Go's
`(nil, err)` return. -/
def failingInner : Request → RoundTripResult :=
  fun _ => .error "connection refused".data

/-- A sample successful inner response. -/
def okResponse : Response :=
  ⟨200, [("Content-Type".data, ["application/json".data])], "ok".data⟩

/-! ## General lemmas -/

/-- The loop body of `AddArgs` is exactly `processArgs`: one unfolding of
`buildArgsMap` on a non-empty token list. -/
theorem buildArgsMap_processArgs (m : List (String × String)) (args : List String)
    (h : args ≠ []) :
    buildArgsMap m args = buildArgsMap (processArgs m args).1 (processArgs m args).2 := by
  match args with
  | [k] => rfl
  | k :: v :: rest => rfl

/-- The clamp in `RedactSecret` computes the minimum of the requested
reveal and an eighth of the length. -/
theorem clampReveal_eq_min (L : Nat) (n : Int) :
    clampReveal L n = min n ((L / 8 : Nat) : Int) := by
  unfold clampReveal
  rw [min_def]
  split_ifs <;> omega

/-- `RedactSecret` is total at every non-negative reveal: the slice panic
branch is unreachable. -/
theorem RedactSecret_nonneg_isSome (s : List Char) (n : Int) (h : 0 ≤ n) :
    (RedactSecret s n).isSome = true := by
  have hclamp : ¬ clampReveal s.length n < 0 := by
    unfold clampReveal
    split_ifs <;> omega
  simp only [RedactSecret]
  split_ifs <;> simp_all

/-- `redactValue6` is exactly what `RedactSecret` at reveal 6 returns. -/
theorem RedactSecret_six_eq (v : List Char) :
    RedactSecret v 6 = some (redactValue6 v) := by
  have h := RedactSecret_nonneg_isSome v 6 (by omega)
  unfold redactValue6
  cases hv : RedactSecret v 6 with
  | none => rw [hv] at h; simp at h
  | some w => rfl

/-! ## Claim theorems -/

/-- C3: for every string `s` and every reveal `n ≥ 0`, `RedactSecret`
first clamps `n` to `⌊len(s)/8⌋` and then returns the empty string, the
fully starred string, the `*len-2*` token, or the
`s[0:n] ++ "[" ++ (len-2n) ++ "]" ++ s[len-n:]` notation exactly as the
claim's case split states; being a pure function of its arguments, it is
deterministic. -/
theorem RedactSecret_meets_spec (s : List Char) (n : Int) (h : 0 ≤ n) :
    RedactSecret s n = some (RedactSecretSpec s n) := by
  simp only [RedactSecret, RedactSecretSpec, clampReveal, min_def]
  split_ifs <;> first
    | rfl
    | omega

/-- Witness for C3 at the 13-character secret of the repository's own
test table and reveal 2. -/
theorem RedactSecret_meets_spec_witness :
    (0 : Int) ≤ 2 ∧
      RedactSecret "observability".data 2 = some (RedactSecretSpec "observability".data 2) :=
  ⟨by decide, RedactSecret_meets_spec "observability".data 2 (by decide)⟩

/-- C10: at a negative reveal the clamp does not raise the value, and for
a string of length at least 8 execution reaches the slice
`secretStr[0:reveal]`, whose out-of-range bound faults (modelled as
`none`) instead of returning a redacted string. -/
theorem RedactSecret_negative_reveal_faults (s : List Char) (n : Int)
    (hlen : 8 ≤ s.length) (hneg : n < 0) :
    clampReveal s.length n = n ∧ RedactSecret s n = none := by
  have hc : clampReveal s.length n = n := by
    unfold clampReveal
    split_ifs <;> omega
  refine ⟨hc, ?_⟩
  simp only [RedactSecret, hc]
  split_ifs <;> first
    | rfl
    | omega

/-- Witness for C10: an 8-character secret at reveal `-1`. -/
theorem RedactSecret_negative_reveal_faults_witness :
    8 ≤ "accessor".data.length ∧ (-1 : Int) < 0 ∧
      clampReveal "accessor".data.length (-1) = -1 ∧
      RedactSecret "accessor".data (-1) = none :=
  ⟨by decide, by decide,
    (RedactSecret_negative_reveal_faults "accessor".data (-1) (by decide) (by decide)).1,
    (RedactSecret_negative_reveal_faults "accessor".data (-1) (by decide) (by decide)).2⟩

/-- C4: the logging decorator, given a request carrying
`Authorization: Bearer mysecrettoken`, logs the request-headers field
with that header's value redacted to `"Be[16]en"` — which is
`RedactSecret("Bearer mysecrettoken", 6)`, the reveal of 6 clamped to 2
on the 20-byte value — and no logged request field mentions the raw
token. -/
theorem logRoundTripper_redacts_bearer :
    RedactSecret "Bearer mysecrettoken".data 6 = some "Be[16]en".data ∧
    headerLookup "Authorization".data (RedactHeaders bearerRequest.headers) =
      some ["Be[16]en".data] ∧
    (requestLogArgs bearerRequest).all
      (fun e => !(valueMentions "mysecrettoken".data e.2)) = true := by
  refine ⟨by decide, by decide, by decide⟩

/-- C6: the metrics decorator takes the start time before delegating and,
on a non-nil response, invokes the recorder with the status code, method,
masked path and that start time; but when the inner transport returns a
nil response with an error, the source dereferences `resp.StatusCode`
without a nil check and faults (modelled as `none`) instead of recording
defensively, contradicting the claim's safety requirement. -/
theorem metricsRoundTripper_nil_response_faults :
    metricsRoundTrip failingInner none bearerRequest 0 = none ∧
    (∀ (resp : Response) (t0 : Nat) (mask : List Char → List Char),
      metricsRoundTrip (fun _ => .ok resp) (some mask) bearerRequest t0 =
        some (⟨resp.statusCode, bearerRequest.method, mask bearerRequest.urlPath, t0⟩,
          .ok resp)) :=
  ⟨rfl, fun _ _ _ => rfl⟩

/-- C9: pushing spans `a` then `b` and calling `End` once ends `b`, pops
it and leaves `a` current (strict LIFO); `Close` with both still stacked
issues `End` on every stacked span (ending the current one first) — a
total computation, so no panic. -/
theorem span_stack_lifo_and_close (o : Observer) (a b : Nat) :
    End (SpanPush (SpanPush o a) b) =
      some ({ o with span := some a, spans := o.spans ++ [a] }, b) ∧
    Close (SpanPush (SpanPush o a) b) = b :: (o.spans ++ [a, b]) ∧
    a ∈ Close (SpanPush (SpanPush o a) b) ∧
    b ∈ Close (SpanPush (SpanPush o a) b) := by
  constructor
  · show End { o with span := some b, spans := (o.spans ++ [a]) ++ [b] } = _
    simp [End, List.dropLast_concat, List.getLast?_concat]
  · refine ⟨by simp [Close, SpanPush], ?_, ?_⟩ <;> simp [Close, SpanPush]

/-- C8: `Get` fails with the `ObserverNotFound` error exactly when the
context holds no Observer under the reserved key; with one bound it
returns that Observer and the context unchanged (never creating one);
and `Extend` propagates the failure, returning the error and no
Observer. -/
theorem get_never_creates_extend_propagates (ctx : Context) (args : List String) :
    (ctxValue ctx obsKeyInstance = none →
      Get ctx = .error observerNotFoundMsg ∧
      Extend ctx args = .error observerNotFoundMsg) ∧
    (∀ o : Observer, ctxValue ctx obsKeyInstance = some o → Get ctx = .ok (ctx, o)) := by
  constructor
  · intro h
    constructor
    · simp [Get, h]
    · simp [Extend, Get, h]
  · intro o h
    simp [Get, h]

/-- Witness for C8 at the empty context, which binds no Observer. -/
theorem get_never_creates_extend_propagates_witness :
    ctxValue ([] : Context) obsKeyInstance = none ∧
    Get ([] : Context) = .error observerNotFoundMsg ∧
    Extend ([] : Context) ["request_id", "42"] = .error observerNotFoundMsg :=
  ⟨rfl,
    ((get_never_creates_extend_propagates [] ["request_id", "42"]).1 rfl).1,
    ((get_never_creates_extend_propagates [] ["request_id", "42"]).1 rfl).2⟩

/-- C7: when the inner HTTP call succeeds but the storage collaborator's
`Exec` fails, the storage decorator logs the failure at `SeverityHigh`,
stores nothing, and returns a nil response with the wrapped error, so the
overall call is reported as failed rather than the storage failure being
swallowed. -/
theorem dbStore_exec_failure_surfaced (inner : Request → RoundTripResult)
    (r : Request) (resp : Response) (e : GoErr) (d : Nat)
    (h : inner r = .ok resp) :
    dbStoreRoundTrip (some e) inner r d =
      ⟨none, some ("failed to store request/response in database".data, SeverityHigh),
        none, some ("failed to store request/response in database: ".data ++ e)⟩ := by
  simp [dbStoreRoundTrip, h]

/-- Witness for C7: a concrete successful inner call whose storage commit
fails. -/
theorem dbStore_exec_failure_surfaced_witness :
    dbStoreRoundTrip (some "connection reset".data) (fun _ => .ok okResponse)
        bearerRequest 12 =
      ⟨none, some ("failed to store request/response in database".data, SeverityHigh),
        none, some ("failed to store request/response in database: connection reset".data)⟩ :=
  dbStore_exec_failure_surfaced (fun _ => .ok okResponse) bearerRequest okResponse
    "connection reset".data 12 rfl

/-! ## Deduplication lemmas -/

/-- `flattenPairs` distributes over append. -/
theorem flattenPairs_append (a b : List (String × String)) :
    flattenPairs (a ++ b) = flattenPairs a ++ flattenPairs b := by
  induction a with
  | nil => rfl
  | cons kv rest ih => rw [List.cons_append]; simp [flattenPairs, ih]

/-- Unfolding `dedupGo` on a full pair. -/
theorem dedupGo_cons (keys : List String) (k v : String) (rest : List String) :
    dedupGo keys (k :: v :: rest) =
      if keys.contains k then dedupGo keys rest
      else k :: v :: dedupGo (keys ++ [k]) rest := rfl

/-- The first-wins fold of `dedupeSpec`, started from an arbitrary
accumulator, extends the accumulator by exactly what `dedupGo` produces
from the accumulator's keys. -/
theorem dedup_fold_aux : ∀ (l : List String) (acc : List (String × String)),
    flattenPairs ((pairsOf l).foldl
      (fun acc kv => if (acc.map Prod.fst).contains kv.1 then acc else acc ++ [kv]) acc) =
    flattenPairs acc ++ dedupGo (acc.map Prod.fst) l
  | [], acc => by simp [pairsOf, dedupGo]
  | [k], acc => by simp [pairsOf, dedupGo]
  | k :: v :: rest, acc => by
    have ih1 := dedup_fold_aux rest acc
    have ih2 := dedup_fold_aux rest (acc ++ [(k, v)])
    rw [show pairsOf (k :: v :: rest) = (k, v) :: pairsOf rest from rfl,
      List.foldl_cons, dedupGo_cons]
    by_cases hc : ((acc.map Prod.fst).contains k) = true
    · rw [if_pos hc, if_pos hc]
      exact ih1
    · rw [if_neg hc, if_neg hc, ih2, flattenPairs_append]
      simp [flattenPairs]

/-- Looking a key up after a Go map assignment. -/
theorem lookup_mapUpsert : ∀ (m : List (String × String)) (k v k' : String),
    lookupArgs (mapUpsert m k v) k' = if k' = k then some v else lookupArgs m k'
  | [], k, v, k' => by
    by_cases h : k' = k
    · subst h
      simp [mapUpsert, lookupArgs, List.find?]
    · have hb : (k == k') = false := by
        simp only [beq_eq_false_iff_ne, ne_eq]
        exact fun hh => h hh.symm
      simp [mapUpsert, lookupArgs, List.find?, h, hb]
  | (k1, v1) :: rest, k, v, k' => by
    have ih := lookup_mapUpsert rest k v k'
    by_cases h1 : k1 = k
    · subst h1
      rw [show mapUpsert ((k1, v1) :: rest) k1 v = (k1, v) :: rest from by
        simp [mapUpsert]]
      by_cases h : k' = k1
      · subst h
        simp [lookupArgs, List.find?]
      · have hb : (k1 == k') = false := by
          simp only [beq_eq_false_iff_ne, ne_eq]
          exact fun hh => h hh.symm
        simp [lookupArgs, List.find?, hb, h]
    · rw [show mapUpsert ((k1, v1) :: rest) k v = (k1, v1) :: mapUpsert rest k v from by
        simp [mapUpsert, h1]]
      by_cases h : k1 = k'
      · subst h
        rw [if_neg h1]
        simp [lookupArgs, List.find?]
      · have hb : (k1 == k') = false := by
          simp only [beq_eq_false_iff_ne, ne_eq]
          exact h
        simp only [lookupArgs, List.find?, hb] at ih ⊢
        exact ih

/-- `getLast?` of a cons, expressed through `Option.or`. -/
theorem getLast?_cons_or : ∀ (L : List (String × String)) (x : String × String),
    (x :: L).getLast? = L.getLast?.or (some x)
  | [], x => rfl
  | y :: ys, x => by
    rw [List.getLast?_cons_cons, getLast?_cons_or ys y, Option.or_assoc]
    rfl

/-- Splitting the last occurrence of a key off a token list that starts
with a full pair. -/
theorem lastValueOf_cons (k k1 v1 : String) (rest : List String) :
    lastValueOf k (k1 :: v1 :: rest) =
      (lastValueOf k rest).or (if k1 == k then some v1 else none) := by
  simp only [lastValueOf]
  rw [show pairsOf (k1 :: v1 :: rest) = (k1, v1) :: pairsOf rest from rfl]
  by_cases hb : (k1 == k) = true
  · rw [if_pos hb, show List.filter (fun kv => kv.1 == k) ((k1, v1) :: pairsOf rest) =
      (k1, v1) :: List.filter (fun kv => kv.1 == k) (pairsOf rest) from by
        simp [List.filter, hb]]
    rw [getLast?_cons_or]
    cases hgl : (List.filter (fun kv => kv.1 == k) (pairsOf rest)).getLast? <;>
      simp [Option.or]
  · rw [if_neg hb, show List.filter (fun kv => kv.1 == k) ((k1, v1) :: pairsOf rest) =
      List.filter (fun kv => kv.1 == k) (pairsOf rest) from by
        simp only [Bool.not_eq_true] at hb
        simp [List.filter, hb]]
    cases (List.filter (fun kv => kv.1 == k) (pairsOf rest)).getLast? <;> rfl

/-- Looking a key up in the map built by the `AddArgs` loop gives the
value of the key's last occurrence in the token list, falling back to
the initial map. -/
theorem buildArgsMap_lookup : ∀ (l : List String) (m : List (String × String)) (k : String),
    lookupArgs (buildArgsMap m l) k = (lastValueOf k l).or (lookupArgs m k)
  | [], m, k => by simp [buildArgsMap, lastValueOf, pairsOf, Option.none_or]
  | [k1], m, k => by simp [buildArgsMap, lastValueOf, pairsOf, Option.none_or]
  | k1 :: v1 :: rest, m, k => by
    have ih := buildArgsMap_lookup rest (mapUpsert m k1 v1) k
    rw [show buildArgsMap m (k1 :: v1 :: rest) = buildArgsMap (mapUpsert m k1 v1) rest
      from rfl, ih, lookup_mapUpsert, lastValueOf_cons, Option.or_assoc]
    by_cases hb : k1 = k
    · subst hb
      simp
    · have hbb : (k1 == k) = false := by
        simp only [beq_eq_false_iff_ne, ne_eq]
        exact hb
      have hkk : ¬ k = k1 := fun hh => hb hh.symm
      simp [hbb, hkk, Option.none_or]

/-- Unfolding `nodupPairsB` on a full pair. -/
theorem nodupPairsB_cons (keys : List String) (k v : String) (rest : List String) :
    nodupPairsB keys (k :: v :: rest) =
      (!keys.contains k && nodupPairsB (keys ++ [k]) rest) := rfl

/-- The output of the `DeduplicateArgs` loop consists of pairs whose keys
are fresh and pairwise distinct. -/
theorem dedupGo_nodupPairsB : ∀ (l keys : List String),
    nodupPairsB keys (dedupGo keys l) = true
  | [], keys => rfl
  | [k], keys => rfl
  | k :: v :: rest, keys => by
    rw [dedupGo_cons]
    by_cases hc : (keys.contains k) = true
    · rw [if_pos hc]
      exact dedupGo_nodupPairsB rest keys
    · rw [if_neg hc, nodupPairsB_cons]
      simp only [Bool.not_eq_true] at hc
      simp only [hc, Bool.not_false, Bool.true_and]
      exact dedupGo_nodupPairsB rest (keys ++ [k])

/-- `DeduplicateArgs`'s loop leaves a token list of fresh, pairwise
distinct pairs unchanged. -/
theorem dedupGo_self : ∀ (l keys : List String),
    nodupPairsB keys l = true → dedupGo keys l = l
  | [], keys, _ => rfl
  | [k], keys, h => by simp [nodupPairsB] at h
  | k :: v :: rest, keys, h => by
    rw [nodupPairsB_cons, Bool.and_eq_true, Bool.not_eq_true'] at h
    rw [dedupGo_cons, if_neg (by rw [h.1]; simp), dedupGo_self rest (keys ++ [k]) h.2]

/-- Keys of the map after a Go map assignment: unchanged when present,
appended when fresh. -/
theorem mapUpsert_keys : ∀ (m : List (String × String)) (k v : String),
    (mapUpsert m k v).map Prod.fst =
      if (m.map Prod.fst).contains k then m.map Prod.fst else m.map Prod.fst ++ [k]
  | [], k, v => by simp [mapUpsert]
  | (k1, v1) :: rest, k, v => by
    have ih := mapUpsert_keys rest k v
    by_cases h1 : k1 = k
    · subst h1
      rw [show mapUpsert ((k1, v1) :: rest) k1 v = (k1, v) :: rest from by
        simp [mapUpsert]]
      simp [List.contains_cons]
    · have hb : (k == k1) = false := by
        simp only [beq_eq_false_iff_ne, ne_eq]
        exact fun hh => h1 hh.symm
      rw [show mapUpsert ((k1, v1) :: rest) k v = (k1, v1) :: mapUpsert rest k v from by
        simp [mapUpsert, h1]]
      simp only [List.map_cons, List.contains_cons, hb, Bool.false_or, ih]
      split_ifs <;> rfl

/-- The `AddArgs` loop keeps the map's keys pairwise distinct. -/
theorem buildArgsMap_keys_nodup : ∀ (l : List String) (m : List (String × String)),
    (m.map Prod.fst).Nodup → ((buildArgsMap m l).map Prod.fst).Nodup
  | [], m, h => h
  | [k], m, h => h
  | k :: v :: rest, m, h => by
    refine buildArgsMap_keys_nodup rest (mapUpsert m k v) ?_
    rw [mapUpsert_keys]
    by_cases hc : ((m.map Prod.fst).contains k) = true
    · rw [if_pos hc]
      exact h
    · rw [if_neg hc]
      have hk : k ∉ m.map Prod.fst := by
        intro hmem
        exact absurd (List.elem_eq_true_of_mem hmem) (by simpa using hc)
      simp [List.nodup_append, h, hk]

/-- A Go map assignment with a fresh key appends the entry. -/
theorem mapUpsert_fresh : ∀ (m : List (String × String)) (k v : String),
    k ∉ m.map Prod.fst → mapUpsert m k v = m ++ [(k, v)]
  | [], k, v, _ => rfl
  | (k1, v1) :: rest, k, v, h => by
    simp only [List.map_cons, List.mem_cons] at h
    push_neg at h
    have h1 : ¬ k1 = k := fun hh => h.1 hh.symm
    simp [mapUpsert, h1, mapUpsert_fresh rest k v h.2]

/-- Rebuilding a map from its flattened pairs reproduces the map, given
distinct keys disjoint from the initial map. -/
theorem buildArgsMap_flattenPairs : ∀ (M m : List (String × String)),
    (M.map Prod.fst).Nodup → (∀ x ∈ m.map Prod.fst, x ∉ M.map Prod.fst) →
    buildArgsMap m (flattenPairs M) = m ++ M
  | [], m, _, _ => by simp [flattenPairs, buildArgsMap]
  | (k, v) :: M', m, hnd, hdisj => by
    simp only [List.map_cons, List.nodup_cons] at hnd
    have hk : k ∉ m.map Prod.fst := fun hmem => hdisj k hmem (by simp)
    have step : buildArgsMap m (flattenPairs ((k, v) :: M')) =
        buildArgsMap (m ++ [(k, v)]) (flattenPairs M') := by
      simp [flattenPairs, buildArgsMap, mapUpsert_fresh m k v hk]
    have hdisj' : ∀ x ∈ (m ++ [(k, v)]).map Prod.fst, x ∉ M'.map Prod.fst := by
      intro x hx
      simp only [List.map_append, List.mem_append, List.map_cons, List.mem_singleton,
        List.map_nil] at hx
      rcases hx with hx | hx
      · intro hmem
        exact hdisj x hx (by simp [hmem])
      · subst hx
        exact hnd.1
    rw [step, buildArgsMap_flattenPairs M' (m ++ [(k, v)]) hnd.2 hdisj',
      List.append_assoc]
    rfl

/-- C1 counterexample: on the token list `["k","v1","k","v2"]` the merge
performed by `Observer.AddArgs` keeps the LAST occurrence's value `"v2"`
(the map assignment overwrites), not the first occurrence's value `"v1"`
that the claim asserts for every implementation — while
`DeduplicateArgs` does keep `"v1"`.  With a single key every Go map
iteration order yields this same output. -/
theorem addArgs_first_wins_counterexample :
    AddArgs [] ["k", "v1", "k", "v2"] = ["k", "v2"] ∧
    AddArgs [] ["k", "v1", "k", "v2"] ≠ ["k", "v1"] ∧
    DeduplicateArgs ["k", "v1", "k", "v2"] = ["k", "v1"] := by
  refine ⟨by decide, by decide, by decide⟩

/-- C1 amended: `DeduplicateArgs` produces the deduplicated ordered list
in which, for every repeated key, the first occurrence's value is kept,
later occurrences are discarded, the relative order of first occurrences
is preserved and an odd trailing key is dropped; the merge performed by
`Observer.AddArgs` instead associates every key with the value of its
LAST occurrence in `stableArgs ++ args`, in map-iteration order. -/
theorem dedup_semantics_amended :
    (∀ l : List String, DeduplicateArgs l = dedupeSpec l) ∧
    (∀ (stable extra : List String) (k : String),
      lookupArgs (buildArgsMap [] (stable ++ extra)) k = lastValueOf k (stable ++ extra)) := by
  constructor
  · intro l
    unfold DeduplicateArgs dedupeSpec
    rw [dedup_fold_aux l []]
    rfl
  · intro stable extra k
    rw [buildArgsMap_lookup (stable ++ extra) [] k]
    cases lastValueOf k (stable ++ extra) <;> rfl

/-- Flattening pairs sends permuted pair lists to permuted token
lists. -/
theorem flattenPairs_perm {M M' : List (String × String)} (h : M.Perm M') :
    (flattenPairs M).Perm (flattenPairs M') := by
  induction h with
  | nil => exact List.Perm.refl _
  | cons x _ ih => exact (ih.cons x.2).cons x.1
  | swap x y L =>
    show (List.Perm ([y.1, y.2] ++ ([x.1, x.2] ++ flattenPairs L))
      ([x.1, x.2] ++ ([y.1, y.2] ++ flattenPairs L)))
    rw [← List.append_assoc, ← List.append_assoc]
    exact (List.perm_append_comm).append_right (flattenPairs L)
  | trans _ _ ih1 ih2 => exact ih1.trans ih2

/-- Rebuilding a map from its own flattened pairs reproduces it, given
distinct keys. -/
theorem buildArgsMap_flattenPairs_self {M : List (String × String)}
    (h : (M.map Prod.fst).Nodup) : buildArgsMap [] (flattenPairs M) = M := by
  simpa using buildArgsMap_flattenPairs M [] h (by simp)

/-- C2 counterexample: one execution of the `AddArgs` merge on
`["a","1","b","2"]` returns `["a","1","b","2"]`, and re-applying the
merge to that output can return `["b","2","a","1"]` — a different list,
because Go walks the map in randomized order — so
`dedupe(dedupe(L)) == dedupe(L)` is not a guarantee of the `AddArgs`
implementation. -/
theorem addArgs_idempotence_counterexample :
    AddArgsCanReturn [] ["a", "1", "b", "2"] ["a", "1", "b", "2"] ∧
    AddArgsCanReturn [] ["a", "1", "b", "2"] ["b", "2", "a", "1"] ∧
    (["b", "2", "a", "1"] : List String) ≠ ["a", "1", "b", "2"] :=
  ⟨⟨[("a", "1"), ("b", "2")], by decide, by decide⟩,
   ⟨[("b", "2"), ("a", "1")], by decide, by decide⟩,
   by decide⟩

/-- C2 amended: `DeduplicateArgs` is idempotent exactly as claimed;
the merge performed by `Observer.AddArgs` is idempotent only up to
permutation — re-merging any possible output rebuilds the same
key-to-value map content (the maps are permutations of each other), and
any possible output of the second application is a permutation of the
first — while exact output-list equality is not guaranteed, the map-range
order being randomized. -/
theorem dedup_idempotent_amended :
    (∀ l : List String, DeduplicateArgs (DeduplicateArgs l) = DeduplicateArgs l) ∧
    (∀ l out : List String, AddArgsCanReturn [] l out →
      (buildArgsMap [] out).Perm (buildArgsMap [] l)) ∧
    (∀ l o1 o2 : List String, AddArgsCanReturn [] l o1 → AddArgsCanReturn [] o1 o2 →
      o2.Perm o1) := by
  have content : ∀ l out : List String, AddArgsCanReturn [] l out →
      (buildArgsMap [] out).Perm (buildArgsMap [] l) := by
    rintro l out ⟨M, hperm, hout⟩
    rw [List.nil_append] at hperm
    have hnd0 : ((buildArgsMap [] l).map Prod.fst).Nodup :=
      buildArgsMap_keys_nodup l [] (by simp)
    have hndM : (M.map Prod.fst).Nodup := ((hperm.map Prod.fst).nodup_iff).mpr hnd0
    rw [hout, buildArgsMap_flattenPairs_self hndM]
    exact hperm
  refine ⟨fun l => dedupGo_self (dedupGo [] l) [] (dedupGo_nodupPairsB l []),
    content, ?_⟩
  rintro l o1 o2 ⟨M1, hp1, ho1⟩ ⟨M2, hp2, ho2⟩
  rw [List.nil_append] at hp1 hp2
  have hnd0 : ((buildArgsMap [] l).map Prod.fst).Nodup :=
    buildArgsMap_keys_nodup l [] (by simp)
  have hnd1 : (M1.map Prod.fst).Nodup := ((hp1.map Prod.fst).nodup_iff).mpr hnd0
  have hB : buildArgsMap [] o1 = M1 := by
    rw [ho1]
    exact buildArgsMap_flattenPairs_self hnd1
  rw [hB] at hp2
  rw [ho1, ho2]
  exact flattenPairs_perm hp2

/-- Witness for C2's amended theorem: two concrete executions of the
merge, the second applied to the first's output, whose results the
theorem proves to be permutations of each other. -/
theorem dedup_idempotent_amended_witness :
    AddArgsCanReturn [] ["c", "3", "d", "4"] ["c", "3", "d", "4"] ∧
    AddArgsCanReturn [] ["c", "3", "d", "4"] ["d", "4", "c", "3"] ∧
    (["d", "4", "c", "3"] : List String).Perm ["c", "3", "d", "4"] := by
  have h1 : AddArgsCanReturn [] ["c", "3", "d", "4"] ["c", "3", "d", "4"] :=
    ⟨[("c", "3"), ("d", "4")], by decide, by decide⟩
  have h2 : AddArgsCanReturn [] ["c", "3", "d", "4"] ["d", "4", "c", "3"] :=
    ⟨[("d", "4"), ("c", "3")], by decide, by decide⟩
  exact ⟨h1, h2, dedup_idempotent_amended.2.2 _ _ _ h1 h2⟩

/-- C5: `RedactHeaders` replaces every value of every header whose name
case-insensitively matches the sensitive-name pattern (which covers
`authorization`, `cookie`, `password` and any name containing `secret`,
`key` or `token`) with `RedactSecret(value, 6)`, and passes every other
header through unmodified with its original value ordering and
multiplicity; stated for header maps whose headers each carry at least
one value (as parsed HTTP headers do — on a sensitive header with an
empty value slice the source's inner loop never runs and the key is
dropped). -/
theorem redactHeaders_meets_spec (headers : Headers)
    (h : ∀ kv ∈ headers, kv.2 ≠ []) :
    RedactHeaders headers = RedactHeadersSpec headers ∧
    ∀ v : List Char, RedactSecret v 6 = some (redactValue6 v) := by
  refine ⟨?_, RedactSecret_six_eq⟩
  revert h
  induction headers with
  | nil => intro h; rfl
  | cons kv t ih =>
    intro h
    obtain ⟨k, vs⟩ := kv
    have h1 : vs ≠ [] := h (k, vs) (by simp)
    have ih' := ih (fun x hx => h x (List.mem_cons_of_mem _ hx))
    obtain ⟨v, vrest, rfl⟩ : ∃ v vrest, vs = v :: vrest := by
      cases vs with
      | nil => exact absurd rfl h1
      | cons a b => exact ⟨a, b, rfl⟩
    by_cases hf : forbiddenKeysMatch k = true
    · have e1 : RedactHeaders ((k, v :: vrest) :: t) =
          (k, (v :: vrest).map redactValue6) :: RedactHeaders t := by
        simp [RedactHeaders, hf]
      have e2 : RedactHeadersSpec ((k, v :: vrest) :: t) =
          (k, (v :: vrest).map redactValue6) :: RedactHeadersSpec t := by
        simp [RedactHeadersSpec, hf]
      rw [e1, e2, ih']
    · have e1 : RedactHeaders ((k, v :: vrest) :: t) =
          (k, v :: vrest) :: RedactHeaders t := by
        simp [RedactHeaders, hf]
      have e2 : RedactHeadersSpec ((k, v :: vrest) :: t) =
          (k, v :: vrest) :: RedactHeadersSpec t := by
        simp [RedactHeadersSpec, hf]
      rw [e1, e2, ih']

/-- Witness for C5: a header map with an untouched `Content-Type`, a
masked `Authorization` and a masked lower-case `authorization`. -/
theorem redactHeaders_meets_spec_witness :
    (∀ kv ∈ ([("Content-Type".data, ["application/json".data]),
        ("Authorization".data, ["Bearer mysecrettoken".data]),
        ("authorization".data, ["Bearer abc12345".data])] : Headers), kv.2 ≠ []) ∧
    RedactHeaders [("Content-Type".data, ["application/json".data]),
        ("Authorization".data, ["Bearer mysecrettoken".data]),
        ("authorization".data, ["Bearer abc12345".data])] =
      RedactHeadersSpec [("Content-Type".data, ["application/json".data]),
        ("Authorization".data, ["Bearer mysecrettoken".data]),
        ("authorization".data, ["Bearer abc12345".data])] :=
  ⟨by decide,
    (redactHeaders_meets_spec
      [("Content-Type".data, ["application/json".data]),
       ("Authorization".data, ["Bearer mysecrettoken".data]),
       ("authorization".data, ["Bearer abc12345".data])] (by decide)).1⟩

end Go11y
